import Mathlib

/-!
Verification of the retrieval chatbot in `src/chatbot.py`.

The development shallowly embeds the program:

* `preprocess_text` mirrors the Python function of the same name.  The NLTK
  primitives `word_tokenize` and `WordNetLemmatizer.lemmatize` are third-party
  code; they are embedded as an abstract `NLP` structure of possibly-failing
  functions (an `Option.none` result models a raised exception, which the
  Python `try/except` catches).  Theorems about the normalizer are proved for
  every such `NLP`, hence in particular for NLTK's.
* The corpus load (`pd.read_csv` + column check + `dropna` + `astype(str)`),
  with its `except` fallback to the two-entry sample corpus, is `load_df`.
* `TfidfVectorizer()` with default settings lowercases, extracts maximal runs
  of at least two word characters (token pattern `\w\w+`), builds the
  vocabulary from the corpus, weights counts by idf and l2-normalizes rows,
  mapping all-zero rows to themselves.  The idf values
  `ln((1+n)/(1+df))+1` are transcendental, so the embedding carries the idf
  assignment as a parameter `idf : String -> Rat`; sklearn's assignment is one
  particular instance (all its values are at least 1, hence positive).
* `NearestNeighbors(n_neighbors=1, algorithm='brute').kneighbors` returns the
  index of the first row attaining the minimal Euclidean distance to the
  query vector; `argminFirst` computes exactly that index for the decidable
  comparison `distLeB`, which is proved equivalent to comparing the real
  Euclidean distances `distR` between the l2-normalized vectors.
* The Dash callback `get_answer` is embedded as a pure function of
  `n_clicks`, the text-area value, and the part of the `try` block after
  normalization (`backend`), whose `Except.error` branch models a caught
  exception.
-/

namespace Chatbot

/-- Model of the Python values that can reach `preprocess_text` from the
corpus or the UI: `None`, a float NaN missing marker, or a string. -/
inductive PyVal where
  | none
  | nan
  | str (s : String)
deriving DecidableEq

/-- Model of `pd.isna` on scalar inputs: true exactly on `None` and NaN. -/
def pdIsna : PyVal → Bool
  | .none => true
  | .nan => true
  | .str _ => false

/-- Model of Python `str(...)` on the values above. -/
def pyStr : PyVal → String
  | .none => "None"
  | .nan => "nan"
  | .str s => s

/-- Lowercasing (Python `str.lower`, also applied by the vectorizer),
computed characterwise so that it evaluates by kernel reduction. -/
def strToLower (s : String) : String := ⟨s.data.map Char.toLower⟩

/-- Abstract interface to the NLTK primitives used by `preprocess_text`.
A `none` result models the call raising an exception. -/
structure NLP where
  word_tokenize : String → Option (List String)
  lemmatize : String → Option String

/-- Embedding of `preprocess_text` (chatbot.py lines 19-27): return `""` for
missing values, otherwise lowercase, tokenize, lemmatize each token and join
with single spaces; any failure of the NLTK calls is caught and yields `""`. -/
def preprocess_text (nlp : NLP) (text : PyVal) : String :=
  if pdIsna text then ""
  else
    match nlp.word_tokenize (strToLower (pyStr text)) with
    | Option.none => ""
    | Option.some tokens =>
      match tokens.mapM nlp.lemmatize with
      | Option.none => ""
      | Option.some lemmatized => String.intercalate " " lemmatized

/-- Concrete executable model of `nltk.word_tokenize` used to evaluate the
pipeline on the concrete inputs appearing below: maximal alphanumeric runs
are tokens and every other non-whitespace character is a one-character token
(this agrees with NLTK on all concrete strings used in this development). -/
def wordRuns : List Char → List Char → List String
  | [], acc => if acc.isEmpty then [] else [String.mk acc.reverse]
  | c :: rest, acc =>
    if c.isAlphanum then wordRuns rest (c :: acc)
    else
      (if acc.isEmpty then [] else [String.mk acc.reverse])
        ++ (if c.isWhitespace then [] else [String.mk [c]])
        ++ wordRuns rest []

/-- Concrete tokenizer entry point (model of `nltk.word_tokenize`). -/
def nltk_word_tokenize (s : String) : List String := wordRuns s.data []

/-- Concrete model of `WordNetLemmatizer().lemmatize`: WordNet lemmatization
is the identity on every token occurring in the concrete corpora and queries
used below (none of them is an inflected form with a distinct lemma). -/
def wordnet_lemmatize (t : String) : String := t

/-- The concrete `NLP` instance used to evaluate witnesses: the NLTK calls
succeed and behave as the two concrete models above. -/
def modelNLP : NLP :=
  ⟨fun s => Option.some (nltk_word_tokenize s), fun t => Option.some (wordnet_lemmatize t)⟩

/-- A corpus row of the dataframe `df`: the `Question` and `Answer` columns. -/
structure Entry where
  Question : String
  Answer : String
deriving DecidableEq

/-- The hard-coded fallback corpus (chatbot.py lines 42-45). -/
def fallback_entries : List Entry :=
  [⟨"What is your return policy?", "30 days money back guarantee"⟩,
   ⟨"How do I contact support?", "Email us at support@company.com"⟩]

/-- Outcome of `pd.read_csv('chatbot_dataset.csv')` plus the column check:
either some exception was raised (missing file, parse error, or the
`ValueError` for missing `Question`/`Answer` columns), or a table of rows
with the two columns' cell values. -/
inductive CsvLoad where
  | failure (msg : String)
  | table (rows : List (PyVal × PyVal))

/-- Embedding of the dataset-loading block (chatbot.py lines 30-46): on any
failure substitute the fallback corpus; otherwise drop rows with a missing
`Question` or `Answer` and coerce both cells to strings. -/
def load_df : CsvLoad → List Entry
  | .failure _ => fallback_entries
  | .table rows =>
    rows.filterMap fun r =>
      if pdIsna r.1 || pdIsna r.2 then Option.none
      else Option.some ⟨pyStr r.1, pyStr r.2⟩

/-- Word characters of the default `TfidfVectorizer` token pattern `\w`. -/
def isSkWordChar (c : Char) : Bool := c.isAlphanum || c == '_'

/-- Maximal runs of characters satisfying `keep`, as strings, in order.
The accumulator holds the current run reversed. -/
def runsBy (keep : Char → Bool) : List Char → List Char → List String
  | [], acc => if acc.isEmpty then [] else [String.mk acc.reverse]
  | c :: rest, acc =>
    if keep c then runsBy keep rest (c :: acc)
    else (if acc.isEmpty then [] else [String.mk acc.reverse]) ++ runsBy keep rest []

/-- The default `TfidfVectorizer` analyzer: lowercase, then extract the
maximal runs of word characters having length at least two
(token pattern `(?u)\b\w\w+\b`). -/
def sklearnTokenize (s : String) : List String :=
  ((runsBy isSkWordChar (strToLower s).data []).filter fun w => 2 ≤ w.length)

/-- Embedding of `vectorizer.fit_transform(df['Processed'])` as far as
success or failure is concerned (chatbot.py lines 49-50): sklearn raises
`ValueError: empty vocabulary` exactly when the analyzer extracts no token
from any document; otherwise the fitted vocabulary is the set of extracted
tokens. -/
def fit_vocabulary (docs : List String) : Except String (List String) :=
  if (docs.map sklearnTokenize).flatten = [] then Except.error "empty vocabulary"
  else Except.ok ((docs.map sklearnTokenize).flatten).eraseDups

/-- Coordinate `t` of the raw (not yet normalized) TF-IDF vector of the
token list `d`: term count times idf weight. -/
def tfidfCoord (idf : String → ℚ) (d : List String) (t : String) : ℚ :=
  (d.count t : ℚ) * idf t

/-- Dot product of two raw TF-IDF vectors over the fitted vocabulary.
Query vectors are also formed over this vocabulary: out-of-vocabulary terms
of a query contribute nothing, exactly as in `vectorizer.transform`. -/
def dotQ (idf : String → ℚ) (vocab : List String) (d1 d2 : List String) : ℚ :=
  (vocab.map fun t => tfidfCoord idf d1 t * tfidfCoord idf d2 t).sum

/-- Decision procedure for "the l2-normalized TF-IDF vector of `di` is at
least as close (in Euclidean distance) to the normalized query vector as that
of `dj`".  For unit vectors the distance order is the reverse cosine order,
and comparing cosines reduces to the rational comparisons below (squaring
away the square roots; all dot products are nonnegative).  Rows and queries
whose raw vector is zero are kept at zero by sklearn's l2 normalization,
which yields the degenerate branches.  The equivalence with the real
Euclidean distance `distR` is proved in `distLeB_iff_distR_le`. -/
def distLeB (idf : String → ℚ) (vocab : List String) (q di dj : List String) : Bool :=
  if dotQ idf vocab q q = 0 then
    decide (dotQ idf vocab di di = 0 ∨ dotQ idf vocab dj dj ≠ 0)
  else if dotQ idf vocab di di = 0 then
    (if dotQ idf vocab dj dj = 0 then true
     else decide (4 * dotQ idf vocab q dj ^ 2 ≤ dotQ idf vocab q q * dotQ idf vocab dj dj))
  else if dotQ idf vocab dj dj = 0 then
    decide (dotQ idf vocab q q * dotQ idf vocab di di ≤ 4 * dotQ idf vocab q di ^ 2)
  else
    decide (dotQ idf vocab q dj ^ 2 * dotQ idf vocab di di ≤
      dotQ idf vocab q di ^ 2 * dotQ idf vocab dj dj)

/-- Model of `model.kneighbors` with `n_neighbors=1` and brute force: the
index (and element) of the first list entry attaining the minimum under the
comparison `dle`; `none` only for the empty list. -/
def argminFirst {α : Type} (dle : α → α → Bool) : List α → Option (ℕ × α)
  | [] => Option.none
  | d :: ds =>
    match argminFirst dle ds with
    | Option.none => Option.some (0, d)
    | Option.some (k, m) => if dle d m then Option.some (0, d) else Option.some (k + 1, m)

/-- The module-level state fixed at startup: the loaded dataframe rows, the
fitted idf assignment, and the NLTK primitives. -/
structure Ctx where
  entries : List Entry
  idf : String → ℚ
  nlp : NLP

/-- The analyzer output for each document of `df['Processed']`. -/
def docTokens (ctx : Ctx) : List (List String) :=
  ctx.entries.map fun e => sklearnTokenize (preprocess_text ctx.nlp (.str e.Question))

/-- The fitted vocabulary (duplicate-free list of all extracted tokens). -/
def vocabOf (ctx : Ctx) : List String := (docTokens ctx).flatten.eraseDups

/-- Embedding of the retrieval tail of the `try` block (chatbot.py lines
97-99): vectorize `processed_q`, take the nearest corpus row, and return that
row's `Answer`. -/
def corpus_answer (ctx : Ctx) (pq : String) : String :=
  match argminFirst
      (fun di dj => distLeB ctx.idf (vocabOf ctx) (sklearnTokenize pq) di dj)
      (docTokens ctx) with
  | Option.none => ""
  | Option.some (k, _) => (ctx.entries.getD k ⟨"", ""⟩).Answer

/-- The first callback output (the `output-area` children): Dash `no_update`,
the validation message of line 95, the two-line exchange of lines 101-106, or
the generic failure message of line 110. -/
inductive Display where
  | noUpdate
  | validationMsg
  | exchange (question answer : String)
  | errorMsg
deriving DecidableEq

/-- Embedding of the callback `get_answer` (chatbot.py lines 88-110).
`n_clicks` is falsy iff it is `0`; the text-area value is `none` or a string.
`backend` is the part of the `try` block after normalization
(vectorize + kneighbors + row lookup); its `error` case models a raised
exception reaching the `except` handler.  The second component of the result
is the value written back into the text area (`none` models `no_update`). -/
def get_answer (nlp : NLP) (backend : String → Except String String)
    (n_clicks : ℕ) (question : Option String) : Display × Option String :=
  if n_clicks = 0 ∨ question = Option.none ∨ question = Option.some "" then
    (.noUpdate, Option.none)
  else if preprocess_text nlp (.str (question.getD "")) = "" then
    (.validationMsg, Option.some "")
  else
    match backend (preprocess_text nlp (.str (question.getD ""))) with
    | .ok answer => (.exchange (question.getD "") answer, Option.some "")
    | .error _ => (.errorMsg, Option.some "")

/-- The backend actually installed at startup: the fitted retrieval index,
which never raises. -/
def realBackend (ctx : Ctx) : String → Except String String :=
  fun pq => Except.ok (corpus_answer ctx pq)

/-- The startup state after a failed corpus load (parameterized by the idf
assignment, abstract because sklearn's idf values are transcendental). -/
def fallbackCtx (idf : String → ℚ) (msg : String) : Ctx :=
  ⟨load_df (.failure msg), idf, modelNLP⟩

/-- A two-entry corpus whose entries have identical normalized questions but
different answers, for exercising the tie-break. -/
def ctxTie : Ctx :=
  ⟨[⟨"hello world", "first"⟩, ⟨"hello world", "second"⟩], fun _ => 1, modelNLP⟩

/-- An `NLP` whose tokenizer always raises, exercising the normalizer's
exception handler. -/
def failNLP : NLP := ⟨fun _ => Option.none, fun t => Option.some t⟩

/-- A backend that raises on every input, exercising the callback's
`except` branch. -/
def failBackend : String → Except String String := fun _ => Except.error "boom"

/-- A trivially succeeding backend. -/
def okBackend : String → Except String String := fun pq => Except.ok pq

/-- Coordinate `t` of the l2-normalized TF-IDF vector of `d`, as a real
number.  sklearn's `normalize(_, norm='l2')` divides each row by its
Euclidean norm and keeps all-zero rows at zero. -/
noncomputable def normCoord (idf : String → ℚ) (vocab : List String) (d : List String)
    (t : String) : ℝ :=
  if dotQ idf vocab d d = 0 then (tfidfCoord idf d t : ℝ)
  else (tfidfCoord idf d t : ℝ) / Real.sqrt ((dotQ idf vocab d d : ℚ) : ℝ)

/-- Squared Euclidean distance between the l2-normalized TF-IDF vectors of a
query `q` and a corpus row `d`, in the feature space indexed by `vocab`. -/
noncomputable def sqDistR (idf : String → ℚ) (vocab : List String) (q d : List String) : ℝ :=
  (vocab.map fun t => (normCoord idf vocab q t - normCoord idf vocab d t) ^ 2).sum

/-- Euclidean distance between the l2-normalized TF-IDF vectors: the metric
reported by `model.kneighbors` (`NearestNeighbors` default Minkowski p=2). -/
noncomputable def distR (idf : String → ℚ) (vocab : List String) (q d : List String) : ℝ :=
  Real.sqrt (sqDistR idf vocab q d)

/-! ### List arithmetic helpers -/

theorem listSumCastR (l : List ℚ) :
    ((l.sum : ℚ) : ℝ) = (l.map fun x : ℚ => (x : ℝ)).sum := by
  induction l with
  | nil => simp
  | cons a l ih => rw [List.sum_cons, List.map_cons, List.sum_cons, Rat.cast_add, ih]

theorem listSumSubSq {α : Type} (l : List α) (f g : α → ℝ) :
    (l.map fun t => (f t - g t) ^ 2).sum =
      (l.map fun t => f t ^ 2).sum - 2 * (l.map fun t => f t * g t).sum
        + (l.map fun t => g t ^ 2).sum := by
  induction l with
  | nil => simp
  | cons a l ih => simp only [List.map_cons, List.sum_cons, ih]; ring

theorem listSumDiv {α : Type} (l : List α) (f : α → ℝ) (c : ℝ) :
    (l.map fun t => f t / c).sum = (l.map f).sum / c := by
  induction l with
  | nil => simp
  | cons a l ih => simp only [List.map_cons, List.sum_cons, ih]; ring

theorem listSumZeroOfMem {α : Type} (l : List α) (f : α → ℝ) (h : ∀ t ∈ l, f t = 0) :
    (l.map f).sum = 0 :=
  List.sum_eq_zero fun x hx => by
    rcases List.mem_map.1 hx with ⟨t, ht, rfl⟩; exact h t ht

/-! ### Basic facts about the TF-IDF dot products -/

theorem dotQ_nonneg (idf : String → ℚ) (vocab d1 d2 : List String) :
    0 ≤ dotQ idf vocab d1 d2 := by
  apply List.sum_nonneg
  intro x hx
  rcases List.mem_map.1 hx with ⟨t, _, rfl⟩
  have h1 : (0 : ℚ) ≤ (d1.count t : ℚ) := by positivity
  have h2 : (0 : ℚ) ≤ (d2.count t : ℚ) := by positivity
  calc (0 : ℚ) = (d1.count t : ℚ) * (d2.count t : ℚ) * 0 := by ring
    _ ≤ (d1.count t : ℚ) * (d2.count t : ℚ) * idf t ^ 2 := by
        exact mul_le_mul_of_nonneg_left (sq_nonneg _) (mul_nonneg h1 h2)
    _ = tfidfCoord idf d1 t * tfidfCoord idf d2 t := by unfold tfidfCoord; ring

theorem dotQ_self_coord_zero (idf : String → ℚ) (vocab d : List String)
    (h : dotQ idf vocab d d = 0) : ∀ t ∈ vocab, tfidfCoord idf d t = 0 := by
  intro t ht
  have hmem : tfidfCoord idf d t * tfidfCoord idf d t ∈
      vocab.map fun t => tfidfCoord idf d t * tfidfCoord idf d t :=
    List.mem_map.2 ⟨t, ht, rfl⟩
  have hz : tfidfCoord idf d t * tfidfCoord idf d t = 0 := by
    refine List.all_zero_of_le_zero_le_of_sum_eq_zero ?_ h hmem
    intro x hx
    rcases List.mem_map.1 hx with ⟨u, _, rfl⟩
    exact mul_self_nonneg _
  exact mul_self_eq_zero.1 hz

theorem dotQ_castR (idf : String → ℚ) (vocab d1 d2 : List String) :
    ((dotQ idf vocab d1 d2 : ℚ) : ℝ) =
      (vocab.map fun t => (tfidfCoord idf d1 t : ℝ) * (tfidfCoord idf d2 t : ℝ)).sum := by
  unfold dotQ
  rw [listSumCastR, List.map_map]
  refine congrArg List.sum (List.map_congr_left ?_)
  intro t ht
  simp [Function.comp, Rat.cast_mul]

theorem dotQ_pos (idf : String → ℚ) (vocab d1 d2 : List String) (t : String)
    (ht : t ∈ vocab) (h1 : 0 < d1.count t) (h2 : 0 < d2.count t) (hidf : idf t ≠ 0) :
    0 < dotQ idf vocab d1 d2 := by
  have hmem : tfidfCoord idf d1 t * tfidfCoord idf d2 t ∈
      vocab.map fun t => tfidfCoord idf d1 t * tfidfCoord idf d2 t :=
    List.mem_map.2 ⟨t, ht, rfl⟩
  have hnn : ∀ x ∈ vocab.map fun t => tfidfCoord idf d1 t * tfidfCoord idf d2 t, (0:ℚ) ≤ x := by
    intro x hx
    rcases List.mem_map.1 hx with ⟨u, _, rfl⟩
    have h1 : (0 : ℚ) ≤ (d1.count u : ℚ) := by positivity
    have h2 : (0 : ℚ) ≤ (d2.count u : ℚ) := by positivity
    calc (0 : ℚ) = (d1.count u : ℚ) * (d2.count u : ℚ) * 0 := by ring
      _ ≤ (d1.count u : ℚ) * (d2.count u : ℚ) * idf u ^ 2 := by
          exact mul_le_mul_of_nonneg_left (sq_nonneg _) (mul_nonneg h1 h2)
      _ = tfidfCoord idf d1 u * tfidfCoord idf d2 u := by unfold tfidfCoord; ring
  have hpos : 0 < tfidfCoord idf d1 t * tfidfCoord idf d2 t := by
    have e : tfidfCoord idf d1 t * tfidfCoord idf d2 t =
        (d1.count t : ℚ) * (d2.count t : ℚ) * idf t ^ 2 := by unfold tfidfCoord; ring
    rw [e]
    have c1 : (0:ℚ) < (d1.count t : ℚ) := by exact_mod_cast h1
    have c2 : (0:ℚ) < (d2.count t : ℚ) := by exact_mod_cast h2
    have c3 : (0:ℚ) < idf t ^ 2 := by positivity
    positivity
  exact lt_of_lt_of_le hpos (List.single_le_sum hnn _ hmem)

theorem dotQ_zero_of_disjoint (idf : String → ℚ) (vocab d1 d2 : List String)
    (h : ∀ t ∈ vocab, d1.count t = 0 ∨ d2.count t = 0) :
    dotQ idf vocab d1 d2 = 0 := by
  apply List.sum_eq_zero
  intro x hx
  rcases List.mem_map.1 hx with ⟨t, ht, rfl⟩
  rcases h t ht with h0 | h0 <;> simp [tfidfCoord, h0]

/-! ### Closed form of the squared distance between normalized vectors -/

theorem normSq_sum (idf : String → ℚ) (vocab d : List String) :
    (vocab.map fun t => normCoord idf vocab d t ^ 2).sum
      = if dotQ idf vocab d d = 0 then (0 : ℝ) else 1 := by
  by_cases h : dotQ idf vocab d d = 0
  · rw [if_pos h]
    apply listSumZeroOfMem
    intro t ht
    have hc : tfidfCoord idf d t = 0 := dotQ_self_coord_zero idf vocab d h t ht
    simp [normCoord, h, hc]
  · rw [if_neg h]
    have hnn : (0 : ℝ) ≤ ((dotQ idf vocab d d : ℚ) : ℝ) := by
      exact_mod_cast dotQ_nonneg idf vocab d d
    have hne : ((dotQ idf vocab d d : ℚ) : ℝ) ≠ 0 := by
      exact_mod_cast h
    have step : (vocab.map fun t => normCoord idf vocab d t ^ 2)
        = vocab.map fun t =>
            ((tfidfCoord idf d t : ℝ) * (tfidfCoord idf d t : ℝ)) /
              ((dotQ idf vocab d d : ℚ) : ℝ) := by
      apply List.map_congr_left
      intro t ht
      rw [normCoord, if_neg h, div_pow, Real.sq_sqrt hnn, pow_two]
    rw [step, listSumDiv, ← dotQ_castR, div_self hne]

theorem crossSum (idf : String → ℚ) (vocab q d : List String) :
    (vocab.map fun t => normCoord idf vocab q t * normCoord idf vocab d t).sum
      = if dotQ idf vocab q q = 0 ∨ dotQ idf vocab d d = 0 then (0 : ℝ)
        else ((dotQ idf vocab q d : ℚ) : ℝ) /
          (Real.sqrt ((dotQ idf vocab q q : ℚ) : ℝ) *
            Real.sqrt ((dotQ idf vocab d d : ℚ) : ℝ)) := by
  by_cases hq : dotQ idf vocab q q = 0
  · rw [if_pos (Or.inl hq)]
    apply listSumZeroOfMem
    intro t ht
    have hc : tfidfCoord idf q t = 0 := dotQ_self_coord_zero idf vocab q hq t ht
    simp [normCoord, hq, hc]
  · by_cases hd : dotQ idf vocab d d = 0
    · rw [if_pos (Or.inr hd)]
      apply listSumZeroOfMem
      intro t ht
      have hc : tfidfCoord idf d t = 0 := dotQ_self_coord_zero idf vocab d hd t ht
      simp [normCoord, hd, hc]
    · rw [if_neg (by push_neg; exact ⟨hq, hd⟩)]
      have step : (vocab.map fun t => normCoord idf vocab q t * normCoord idf vocab d t)
          = vocab.map fun t =>
              ((tfidfCoord idf q t : ℝ) * (tfidfCoord idf d t : ℝ)) /
                (Real.sqrt ((dotQ idf vocab q q : ℚ) : ℝ) *
                  Real.sqrt ((dotQ idf vocab d d : ℚ) : ℝ)) := by
        apply List.map_congr_left
        intro t ht
        rw [normCoord, if_neg hq, normCoord, if_neg hd, div_mul_div_comm]
      rw [step, listSumDiv, ← dotQ_castR]

theorem sqDistR_closed (idf : String → ℚ) (vocab q d : List String) :
    sqDistR idf vocab q d =
      (if dotQ idf vocab q q = 0 then (0 : ℝ) else 1)
        + (if dotQ idf vocab d d = 0 then (0 : ℝ) else 1)
        - 2 * (if dotQ idf vocab q q = 0 ∨ dotQ idf vocab d d = 0 then (0 : ℝ)
            else ((dotQ idf vocab q d : ℚ) : ℝ) /
              (Real.sqrt ((dotQ idf vocab q q : ℚ) : ℝ) *
                Real.sqrt ((dotQ idf vocab d d : ℚ) : ℝ))) := by
  unfold sqDistR
  rw [listSumSubSq, normSq_sum, normSq_sum, crossSum]
  ring

theorem sqDistR_nonneg (idf : String → ℚ) (vocab q d : List String) :
    0 ≤ sqDistR idf vocab q d := by
  apply List.sum_nonneg
  intro x hx
  rcases List.mem_map.1 hx with ⟨t, _, rfl⟩
  exact sq_nonneg _

/-! ### Square-root-free characterizations of the distance comparisons -/

theorem twoMulDivLe_one_iff (N n a : ℚ) (hN : 0 < N) (hn : 0 < n) (ha : 0 ≤ a) :
    2 * ((a : ℝ) / (Real.sqrt (N : ℝ) * Real.sqrt (n : ℝ))) ≤ 1 ↔ 4 * a ^ 2 ≤ N * n := by
  have hNr : (0 : ℝ) < (N : ℝ) := by exact_mod_cast hN
  have hnr : (0 : ℝ) < (n : ℝ) := by exact_mod_cast hn
  have har : (0 : ℝ) ≤ (a : ℝ) := by exact_mod_cast ha
  have hS : 0 < Real.sqrt (N : ℝ) * Real.sqrt (n : ℝ) :=
    mul_pos (Real.sqrt_pos.2 hNr) (Real.sqrt_pos.2 hnr)
  rw [show 2 * ((a : ℝ) / (Real.sqrt (N : ℝ) * Real.sqrt (n : ℝ)))
      = (2 * (a : ℝ)) / (Real.sqrt (N : ℝ) * Real.sqrt (n : ℝ)) from by ring]
  rw [div_le_one hS, ← Real.sqrt_mul hNr.le, Real.le_sqrt (by positivity) (by positivity)]
  constructor
  · intro h
    have h2 : ((4 * a ^ 2 : ℚ) : ℝ) ≤ ((N * n : ℚ) : ℝ) := by push_cast; nlinarith
    exact_mod_cast h2
  · intro h
    have h2 : ((4 * a ^ 2 : ℚ) : ℝ) ≤ ((N * n : ℚ) : ℝ) := by exact_mod_cast h
    push_cast at h2
    nlinarith

theorem one_le_twoMulDiv_iff (N n a : ℚ) (hN : 0 < N) (hn : 0 < n) (ha : 0 ≤ a) :
    1 ≤ 2 * ((a : ℝ) / (Real.sqrt (N : ℝ) * Real.sqrt (n : ℝ))) ↔ N * n ≤ 4 * a ^ 2 := by
  have hNr : (0 : ℝ) < (N : ℝ) := by exact_mod_cast hN
  have hnr : (0 : ℝ) < (n : ℝ) := by exact_mod_cast hn
  have har : (0 : ℝ) ≤ (a : ℝ) := by exact_mod_cast ha
  have hS : 0 < Real.sqrt (N : ℝ) * Real.sqrt (n : ℝ) :=
    mul_pos (Real.sqrt_pos.2 hNr) (Real.sqrt_pos.2 hnr)
  rw [show 2 * ((a : ℝ) / (Real.sqrt (N : ℝ) * Real.sqrt (n : ℝ)))
      = (2 * (a : ℝ)) / (Real.sqrt (N : ℝ) * Real.sqrt (n : ℝ)) from by ring]
  rw [one_le_div hS, ← Real.sqrt_mul hNr.le, Real.sqrt_le_left (by positivity)]
  constructor
  · intro h
    have h2 : ((N * n : ℚ) : ℝ) ≤ ((4 * a ^ 2 : ℚ) : ℝ) := by push_cast; nlinarith
    exact_mod_cast h2
  · intro h
    have h2 : ((N * n : ℚ) : ℝ) ≤ ((4 * a ^ 2 : ℚ) : ℝ) := by exact_mod_cast h
    push_cast at h2
    nlinarith

theorem div_le_div_sqrt_iff (N ni nj ai aj : ℚ) (hN : 0 < N) (hni : 0 < ni) (hnj : 0 < nj)
    (hai : 0 ≤ ai) (haj : 0 ≤ aj) :
    (aj : ℝ) / (Real.sqrt (N : ℝ) * Real.sqrt (nj : ℝ))
        ≤ (ai : ℝ) / (Real.sqrt (N : ℝ) * Real.sqrt (ni : ℝ))
      ↔ aj ^ 2 * ni ≤ ai ^ 2 * nj := by
  have hNr : (0 : ℝ) < (N : ℝ) := by exact_mod_cast hN
  have hnir : (0 : ℝ) < (ni : ℝ) := by exact_mod_cast hni
  have hnjr : (0 : ℝ) < (nj : ℝ) := by exact_mod_cast hnj
  have hair : (0 : ℝ) ≤ (ai : ℝ) := by exact_mod_cast hai
  have hajr : (0 : ℝ) ≤ (aj : ℝ) := by exact_mod_cast haj
  rw [div_le_div_iff₀ (mul_pos (Real.sqrt_pos.2 hNr) (Real.sqrt_pos.2 hnjr))
      (mul_pos (Real.sqrt_pos.2 hNr) (Real.sqrt_pos.2 hnir))]
  rw [show (aj : ℝ) * (Real.sqrt (N : ℝ) * Real.sqrt (ni : ℝ))
      = Real.sqrt (N : ℝ) * ((aj : ℝ) * Real.sqrt (ni : ℝ)) from by ring]
  rw [show (ai : ℝ) * (Real.sqrt (N : ℝ) * Real.sqrt (nj : ℝ))
      = Real.sqrt (N : ℝ) * ((ai : ℝ) * Real.sqrt (nj : ℝ)) from by ring]
  rw [mul_le_mul_left (Real.sqrt_pos.2 hNr)]
  rw [← pow_le_pow_iff_left₀ (mul_nonneg hajr (Real.sqrt_nonneg _))
      (mul_nonneg hair (Real.sqrt_nonneg _)) two_ne_zero]
  rw [mul_pow, mul_pow, Real.sq_sqrt hnir.le, Real.sq_sqrt hnjr.le]
  constructor
  · intro h
    have h2 : ((aj ^ 2 * ni : ℚ) : ℝ) ≤ ((ai ^ 2 * nj : ℚ) : ℝ) := by push_cast; nlinarith
    exact_mod_cast h2
  · intro h
    have h2 : ((aj ^ 2 * ni : ℚ) : ℝ) ≤ ((ai ^ 2 * nj : ℚ) : ℝ) := by exact_mod_cast h
    push_cast at h2
    nlinarith

/-- The decidable comparison `distLeB` decides the ordering of the real
Euclidean distances between the l2-normalized TF-IDF vectors. -/
theorem distLeB_iff (idf : String → ℚ) (vocab q di dj : List String) :
    distLeB idf vocab q di dj = true ↔
      sqDistR idf vocab q di ≤ sqDistR idf vocab q dj := by
  rw [sqDistR_closed, sqDistR_closed]
  unfold distLeB
  by_cases hN : dotQ idf vocab q q = 0
  · rw [if_pos hN, if_pos hN,
      if_pos (show dotQ idf vocab q q = 0 ∨ dotQ idf vocab di di = 0 from Or.inl hN),
      if_pos (show dotQ idf vocab q q = 0 ∨ dotQ idf vocab dj dj = 0 from Or.inl hN)]
    by_cases hi : dotQ idf vocab di di = 0 <;> by_cases hj : dotQ idf vocab dj dj = 0 <;>
        simp [hi, hj]
  · have hNq : (0 : ℚ) < dotQ idf vocab q q :=
      lt_of_le_of_ne (dotQ_nonneg idf vocab q q) (Ne.symm hN)
    rw [if_neg hN, if_neg hN]
    by_cases hi : dotQ idf vocab di di = 0
    · rw [if_pos hi, if_pos hi,
        if_pos (show dotQ idf vocab q q = 0 ∨ dotQ idf vocab di di = 0 from Or.inr hi)]
      by_cases hj : dotQ idf vocab dj dj = 0
      · rw [if_pos hj, if_pos hj,
          if_pos (show dotQ idf vocab q q = 0 ∨ dotQ idf vocab dj dj = 0 from Or.inr hj)]
        norm_num
      · have hjq : (0 : ℚ) < dotQ idf vocab dj dj :=
          lt_of_le_of_ne (dotQ_nonneg idf vocab dj dj) (Ne.symm hj)
        have hcj : ¬(dotQ idf vocab q q = 0 ∨ dotQ idf vocab dj dj = 0) := by
          push_neg
          exact ⟨hN, hj⟩
        rw [if_neg hj, if_neg hj, if_neg hcj]
        rw [decide_eq_true_eq]
        have key := twoMulDivLe_one_iff (dotQ idf vocab q q) (dotQ idf vocab dj dj)
          (dotQ idf vocab q dj) hNq hjq (dotQ_nonneg idf vocab q dj)
        constructor
        · intro h
          have h2 := key.2 h
          linarith
        · intro h
          exact key.1 (by linarith)
    · have hiq : (0 : ℚ) < dotQ idf vocab di di :=
        lt_of_le_of_ne (dotQ_nonneg idf vocab di di) (Ne.symm hi)
      have hci : ¬(dotQ idf vocab q q = 0 ∨ dotQ idf vocab di di = 0) := by
        push_neg
        exact ⟨hN, hi⟩
      rw [if_neg hi, if_neg hi, if_neg hci]
      by_cases hj : dotQ idf vocab dj dj = 0
      · rw [if_pos hj, if_pos hj,
          if_pos (show dotQ idf vocab q q = 0 ∨ dotQ idf vocab dj dj = 0 from Or.inr hj)]
        rw [decide_eq_true_eq]
        have key := one_le_twoMulDiv_iff (dotQ idf vocab q q) (dotQ idf vocab di di)
          (dotQ idf vocab q di) hNq hiq (dotQ_nonneg idf vocab q di)
        constructor
        · intro h
          have h2 := key.2 h
          linarith
        · intro h
          exact key.1 (by linarith)
      · have hjq : (0 : ℚ) < dotQ idf vocab dj dj :=
          lt_of_le_of_ne (dotQ_nonneg idf vocab dj dj) (Ne.symm hj)
        have hcj : ¬(dotQ idf vocab q q = 0 ∨ dotQ idf vocab dj dj = 0) := by
          push_neg
          exact ⟨hN, hj⟩
        rw [if_neg hj, if_neg hj, if_neg hcj]
        rw [decide_eq_true_eq]
        have key := div_le_div_sqrt_iff (dotQ idf vocab q q) (dotQ idf vocab di di)
          (dotQ idf vocab dj dj) (dotQ idf vocab q di) (dotQ idf vocab q dj)
          hNq hiq hjq (dotQ_nonneg idf vocab q di) (dotQ_nonneg idf vocab q dj)
        constructor
        · intro h
          have h2 := key.2 h
          linarith
        · intro h
          exact key.1 (by linarith)

theorem distLeB_le_total (idf : String → ℚ) (vocab q di dj : List String) :
    distLeB idf vocab q di dj = true ∨ distLeB idf vocab q dj di = true := by
  rcases le_total (sqDistR idf vocab q di) (sqDistR idf vocab q dj) with h | h
  · exact Or.inl ((distLeB_iff idf vocab q di dj).2 h)
  · exact Or.inr ((distLeB_iff idf vocab q dj di).2 h)

theorem distLeB_le_trans (idf : String → ℚ) (vocab q dx dy dz : List String)
    (h1 : distLeB idf vocab q dx dy = true) (h2 : distLeB idf vocab q dy dz = true) :
    distLeB idf vocab q dx dz = true :=
  (distLeB_iff idf vocab q dx dz).2
    (le_trans ((distLeB_iff idf vocab q dx dy).1 h1) ((distLeB_iff idf vocab q dy dz).1 h2))

theorem distR_le_iff (idf : String → ℚ) (vocab q d1 d2 : List String) :
    distR idf vocab q d1 ≤ distR idf vocab q d2 ↔
      sqDistR idf vocab q d1 ≤ sqDistR idf vocab q d2 :=
  Real.sqrt_le_sqrt_iff (sqDistR_nonneg idf vocab q d2)

theorem distR_lt_iff (idf : String → ℚ) (vocab q d1 d2 : List String) :
    distR idf vocab q d1 < distR idf vocab q d2 ↔
      sqDistR idf vocab q d1 < sqDistR idf vocab q d2 :=
  Real.sqrt_lt_sqrt_iff (sqDistR_nonneg idf vocab q d1)

/-! ### Correctness of the first-minimum selection -/

theorem argminFirst_eq_none {α : Type} (dle : α → α → Bool) (l : List α) :
    argminFirst dle l = Option.none ↔ l = [] := by
  cases l with
  | nil => simp [argminFirst]
  | cons d ds =>
    simp only [argminFirst]
    cases h : argminFirst dle ds with
    | none => simp
    | some p =>
      obtain ⟨k, m⟩ := p
      by_cases hd : dle d m <;> simp [hd]

theorem argminFirst_spec {α : Type} (dle : α → α → Bool)
    (htot : ∀ x y, dle x y = true ∨ dle y x = true)
    (htrans : ∀ x y z, dle x y = true → dle y z = true → dle x z = true) :
    ∀ (l : List α) (k : ℕ) (m : α), argminFirst dle l = Option.some (k, m) →
      k < l.length ∧ l.get? k = Option.some m ∧
      (∀ j (hj : j < l.length), dle m (l.get ⟨j, hj⟩) = true) ∧
      (∀ j (hj : j < l.length), j < k → dle (l.get ⟨j, hj⟩) m = false) := by
  have hrefl : ∀ x, dle x x = true := fun x => by rcases htot x x with h | h <;> exact h
  intro l
  induction l with
  | nil => intro k m h; simp [argminFirst] at h
  | cons d ds ih =>
    intro k m h
    cases hds : argminFirst dle ds with
    | none =>
      have hnil : ds = [] := (argminFirst_eq_none dle ds).1 hds
      subst hnil
      simp only [argminFirst] at h
      obtain ⟨rfl, rfl⟩ : 0 = k ∧ d = m := by
        constructor <;> [exact congrArg Prod.fst (Option.some.inj h);
          exact congrArg Prod.snd (Option.some.inj h)]
      refine ⟨Nat.succ_pos 0, rfl, ?_, ?_⟩
      · intro j hj
        have hj0 : j = 0 := by
          simp only [List.length_singleton] at hj
          omega
        subst hj0
        exact hrefl d
      · intro j hj hjk
        exact absurd hjk (Nat.not_lt_zero j)
    | some p =>
      obtain ⟨k', m'⟩ := p
      obtain ⟨hk'len, hget', hmin', hfirst'⟩ := ih k' m' hds
      simp only [argminFirst, hds] at h
      by_cases hd : dle d m' = true
      · rw [if_pos hd] at h
        obtain ⟨rfl, rfl⟩ : 0 = k ∧ d = m := by
          constructor <;> [exact congrArg Prod.fst (Option.some.inj h);
            exact congrArg Prod.snd (Option.some.inj h)]
        refine ⟨Nat.succ_pos _, rfl, ?_, ?_⟩
        · intro j hj
          cases j with
          | zero => exact hrefl d
          | succ j =>
            rw [List.get_cons_succ]
            exact htrans d m' _ hd (hmin' j (Nat.lt_of_succ_lt_succ hj))
        · intro j hj hjk
          exact absurd hjk (Nat.not_lt_zero j)
      · rw [if_neg hd] at h
        obtain ⟨rfl, rfl⟩ : k' + 1 = k ∧ m' = m := by
          constructor <;> [exact congrArg Prod.fst (Option.some.inj h);
            exact congrArg Prod.snd (Option.some.inj h)]
        refine ⟨Nat.succ_lt_succ hk'len, ?_, ?_, ?_⟩
        · simpa using hget'
        · intro j hj
          cases j with
          | zero =>
            rcases htot d m' with h1 | h1
            · exact absurd h1 hd
            · exact h1
          | succ j =>
            rw [List.get_cons_succ]
            exact hmin' j (Nat.lt_of_succ_lt_succ hj)
        · intro j hj hjk
          cases j with
          | zero =>
            cases hval : dle d m' with
            | true => exact absurd hval hd
            | false => exact hval
          | succ j =>
            rw [List.get_cons_succ]
            exact hfirst' j (Nat.lt_of_succ_lt_succ hj) (Nat.lt_of_succ_lt_succ hjk)

theorem argminFirst_cons_of_le {α : Type} (dle : α → α → Bool)
    (htot : ∀ x y, dle x y = true ∨ dle y x = true)
    (htrans : ∀ x y z, dle x y = true → dle y z = true → dle x z = true)
    (d : α) (ds : List α) (h : ∀ x ∈ ds, dle d x = true) :
    argminFirst dle (d :: ds) = Option.some (0, d) := by
  cases hds : argminFirst dle ds with
  | none => simp [argminFirst, hds]
  | some p =>
    obtain ⟨k, m⟩ := p
    obtain ⟨hklen, hget, _, _⟩ := argminFirst_spec dle htot htrans ds k m hds
    have hmem : m ∈ ds := by
      have he : ds.get ⟨k, hklen⟩ = m := by
        have h2 := List.get?_eq_get hklen
        rw [h2] at hget
        exact Option.some.inj hget
      rw [← he]
      exact List.get_mem ds k hklen
    simp [argminFirst, hds, h m hmem]

/-! ### Behaviour of the query path -/

/-- The retrieval tail returns the `Answer` of the row whose normalized
TF-IDF vector is nearest (in Euclidean distance) to the query vector, the
first such row in case of ties. -/
theorem corpus_answer_spec (ctx : Ctx) (pq : String) (hne : ctx.entries ≠ []) :
    ∃ k m, ∃ hk : k < ctx.entries.length,
      (docTokens ctx).get? k = Option.some m ∧
      corpus_answer ctx pq = (ctx.entries.get ⟨k, hk⟩).Answer ∧
      (∀ j (hj : j < (docTokens ctx).length),
        distR ctx.idf (vocabOf ctx) (sklearnTokenize pq) m
          ≤ distR ctx.idf (vocabOf ctx) (sklearnTokenize pq) ((docTokens ctx).get ⟨j, hj⟩)) ∧
      (∀ j (hj : j < (docTokens ctx).length), j < k →
        distR ctx.idf (vocabOf ctx) (sklearnTokenize pq) m
          < distR ctx.idf (vocabOf ctx) (sklearnTokenize pq) ((docTokens ctx).get ⟨j, hj⟩)) := by
  have hlen : (docTokens ctx).length = ctx.entries.length := by
    unfold docTokens
    exact List.length_map _ _
  have hdne : docTokens ctx ≠ [] := by
    intro h0
    apply hne
    have := congrArg List.length h0
    rw [hlen] at this
    exact List.length_eq_zero.1 this
  set dle : List String → List String → Bool :=
    fun di dj => distLeB ctx.idf (vocabOf ctx) (sklearnTokenize pq) di dj with hdle
  have htot : ∀ x y, dle x y = true ∨ dle y x = true := fun x y =>
    distLeB_le_total ctx.idf (vocabOf ctx) (sklearnTokenize pq) x y
  have htrans : ∀ x y z, dle x y = true → dle y z = true → dle x z = true := fun x y z =>
    distLeB_le_trans ctx.idf (vocabOf ctx) (sklearnTokenize pq) x y z
  obtain ⟨p, hp⟩ : ∃ p, argminFirst dle (docTokens ctx) = Option.some p := by
    cases hcase : argminFirst dle (docTokens ctx) with
    | none => exact absurd ((argminFirst_eq_none dle (docTokens ctx)).1 hcase) hdne
    | some p => exact ⟨p, rfl⟩
  obtain ⟨k, m⟩ := p
  obtain ⟨hklen, hget, hmin, hfirst⟩ := argminFirst_spec dle htot htrans _ k m hp
  have hk : k < ctx.entries.length := hlen ▸ hklen
  refine ⟨k, m, hk, hget, ?_, ?_, ?_⟩
  · unfold corpus_answer
    rw [hp]
    show (ctx.entries.getD k ⟨"", ""⟩).Answer = (ctx.entries.get ⟨k, hk⟩).Answer
    rw [List.getD_eq_getElem?_getD, List.getElem?_eq_getElem hk]
    rfl
  · intro j hj
    exact (distR_le_iff _ _ _ _ _).2
      ((distLeB_iff ctx.idf (vocabOf ctx) (sklearnTokenize pq) m _).1 (hmin j hj))
  · intro j hj hjk
    have hf := hfirst j hj hjk
    rw [distR_lt_iff]
    rcases lt_or_le (sqDistR ctx.idf (vocabOf ctx) (sklearnTokenize pq) m)
        (sqDistR ctx.idf (vocabOf ctx) (sklearnTokenize pq) ((docTokens ctx).get ⟨j, hj⟩))
      with h | h
    · exact h
    · have htrue := (distLeB_iff ctx.idf (vocabOf ctx) (sklearnTokenize pq)
          ((docTokens ctx).get ⟨j, hj⟩) m).2 h
      have hfalse : distLeB ctx.idf (vocabOf ctx) (sklearnTokenize pq)
          ((docTokens ctx).get ⟨j, hj⟩) m = false := hf
      rw [hfalse] at htrue
      exact absurd htrue Bool.false_ne_true

/-- If the guard of line 89 passes and normalization yields a non-empty
string, the callback runs the retrieval tail. -/
theorem get_answer_submit (nlp : NLP) (backend : String → Except String String)
    (q : String) (hq : q ≠ "") (hpq : preprocess_text nlp (.str q) ≠ "") :
    get_answer nlp backend 1 (Option.some q)
      = match backend (preprocess_text nlp (.str q)) with
        | .ok a => (.exchange q a, Option.some "")
        | .error _ => (.errorMsg, Option.some "") := by
  unfold get_answer
  have hc : ¬((1 : ℕ) = 0 ∨ Option.some q = Option.none ∨ Option.some q = Option.some "") := by
    push_neg
    refine ⟨one_ne_zero, by simp, by simp [hq]⟩
  rw [if_neg hc]
  simp only [Option.getD_some]
  rw [if_neg hpq]

/-- With the fitted retrieval backend the callback returns the two-line
exchange with the retrieved answer. -/
theorem get_answer_realBackend (ctx : Ctx) (q : String) (hq : q ≠ "")
    (hpq : preprocess_text ctx.nlp (.str q) ≠ "") :
    get_answer ctx.nlp (realBackend ctx) 1 (Option.some q)
      = (.exchange q (corpus_answer ctx (preprocess_text ctx.nlp (.str q))), Option.some "") := by
  rw [get_answer_submit ctx.nlp (realBackend ctx) q hq hpq]
  rfl

/-! ### Claims -/

/-- C2 counterexample: the claim is false for the empty string.  `""`
normalizes to the empty string, yet the callback returns Dash `no_update`
for both outputs (line 89 guard), not the validation message; it still
never returns a corpus answer. -/
theorem C2_counterexample :
    preprocess_text modelNLP (.str "") = "" ∧
    get_answer modelNLP (realBackend (fallbackCtx (fun _ => 1) "missing file")) 1
        (Option.some "") = (.noUpdate, Option.none) ∧
    ((Display.noUpdate, (Option.none : Option String))
      ≠ (Display.validationMsg, Option.some "")) := by
  refine ⟨by decide, ?_, by decide⟩
  unfold get_answer
  rw [if_pos (Or.inr (Or.inr rfl))]

/-- C2 (amended): every non-empty question string whose normalized text is
empty (e.g. whitespace-only input) yields the validation message, with the
input field cleared, and never a corpus answer; the empty string itself is
caught by the falsy-input guard and yields `no_update` for both outputs.
This holds for every backend: vectorization is not attempted. -/
theorem C2_empty_query_amended (nlp : NLP) (backend : String → Except String String)
    (n : ℕ) (hn : n ≠ 0) (q : String) (hq : q ≠ "")
    (hpq : preprocess_text nlp (.str q) = "") :
    get_answer nlp backend n (Option.some q) = (.validationMsg, Option.some "") ∧
    get_answer nlp backend n (Option.some "") = (.noUpdate, Option.none) := by
  constructor
  · unfold get_answer
    have hc : ¬(n = 0 ∨ Option.some q = Option.none ∨ Option.some q = Option.some "") := by
      push_neg
      refine ⟨hn, by simp, by simp [hq]⟩
    rw [if_neg hc]
    simp only [Option.getD_some]
    rw [if_pos hpq]
  · unfold get_answer
    rw [if_pos (Or.inr (Or.inr rfl))]

theorem C2_witness :
    ((1 : ℕ) ≠ 0 ∧ ("   " : String) ≠ "" ∧ preprocess_text modelNLP (.str "   ") = "") ∧
    (get_answer modelNLP okBackend 1 (Option.some "   ") = (.validationMsg, Option.some "") ∧
      get_answer modelNLP okBackend 1 (Option.some "") = (.noUpdate, Option.none)) :=
  ⟨⟨by decide, by decide, by decide⟩,
    C2_empty_query_amended modelNLP okBackend 1 (by decide) "   " (by decide) (by decide)⟩

/-- C4 counterexample: the claim's converse half is false.  The corpus
question "a" has the non-empty normalized form "a", yet index construction
still fails, because the vectorizer's token pattern keeps only tokens of at
least two word characters, so the vocabulary is empty. -/
theorem C4_counterexample :
    preprocess_text modelNLP (.str "a") ≠ "" ∧
    fit_vocabulary [preprocess_text modelNLP (.str "a")] =
      Except.error "empty vocabulary" := by
  refine ⟨by decide, ?_⟩
  rfl

/-- C4 (amended): index construction fails (sklearn's fatal
"empty vocabulary" `ValueError`, the spec's `IndexBuildError`) exactly when
the analyzer extracts no token from any normalized question; in particular
it fails whenever every normalized question is the empty string, but it also
fails for non-empty normalized questions all of whose tokens are shorter
than two word characters.  Otherwise construction succeeds. -/
theorem C4_vocabulary_amended (docs : List String) :
    ((∀ d ∈ docs, d = "") → fit_vocabulary docs = Except.error "empty vocabulary") ∧
    (fit_vocabulary docs = Except.error "empty vocabulary" ↔
      ∀ d ∈ docs, sklearnTokenize d = []) := by
  have hiff : ((docs.map sklearnTokenize).flatten = []) ↔
      ∀ d ∈ docs, sklearnTokenize d = [] := by
    rw [List.flatten_eq_nil_iff]
    constructor
    · intro h d hd
      exact h _ (List.mem_map.2 ⟨d, hd, rfl⟩)
    · intro h l hl
      rcases List.mem_map.1 hl with ⟨d, hd, rfl⟩
      exact h d hd
  constructor
  · intro hall
    have hc : (docs.map sklearnTokenize).flatten = [] := by
      refine hiff.2 fun d hd => ?_
      rw [hall d hd]
      rfl
    unfold fit_vocabulary
    rw [if_pos hc]
  · unfold fit_vocabulary
    by_cases hc : (docs.map sklearnTokenize).flatten = []
    · rw [if_pos hc]
      simp only [true_iff]
      exact hiff.1 hc
    · rw [if_neg hc]
      constructor
      · intro h
        exact absurd h (by simp)
      · intro h
        exact absurd (hiff.2 h) hc

theorem C4_witness :
    fit_vocabulary ["", ""] = Except.error "empty vocabulary" :=
  (C4_vocabulary_amended ["", ""]).1 (by decide)

/-- C5: the normalizer never raises.  Exceptions of the NLTK primitives are
modelled by `Option.none` results; for every input value, if tokenization
fails, or tokenization succeeds and lemmatization of the tokens fails, then
`preprocess_text` returns the empty string (and it is a total `String`-valued
function, so no error propagates). -/
theorem C5_never_raises (nlp : NLP) (t : PyVal) :
    (nlp.word_tokenize (strToLower (pyStr t)) = Option.none →
      preprocess_text nlp t = "") ∧
    (∀ toks, nlp.word_tokenize (strToLower (pyStr t)) = Option.some toks →
      toks.mapM nlp.lemmatize = Option.none → preprocess_text nlp t = "") := by
  constructor
  · intro h
    unfold preprocess_text
    by_cases hna : pdIsna t = true
    · rw [if_pos hna]
    · rw [if_neg hna, h]
  · intro toks h1 h2
    unfold preprocess_text
    by_cases hna : pdIsna t = true
    · rw [if_pos hna]
    · rw [if_neg hna, h1]
      show (match toks.mapM nlp.lemmatize with
        | Option.none => ""
        | Option.some lemmatized => String.intercalate " " lemmatized) = ""
      rw [h2]

theorem C5_witness :
    preprocess_text failNLP (.str "hello") = "" :=
  (C5_never_raises failNLP (.str "hello")).1 rfl

/-- C6: missing values normalize to the empty string: `preprocess_text`
returns `""` on `None` and on NaN, for every behaviour of the NLTK
primitives (the `pd.isna` guard fires before they are called). -/
theorem C6_null_handling (nlp : NLP) :
    preprocess_text nlp PyVal.none = "" ∧ preprocess_text nlp PyVal.nan = "" :=
  ⟨rfl, rfl⟩

/-- C7: normalization and querying are deterministic.  The embedding of the
query path is a pure function of the startup state, so equal inputs give
equal outputs for both `preprocess_text` and `get_answer`. -/
theorem C7_deterministic (nlp : NLP) (backend : String → Except String String)
    (n : ℕ) (t t' : PyVal) (q q' : Option String) (ht : t = t') (hq : q = q') :
    preprocess_text nlp t = preprocess_text nlp t' ∧
    get_answer nlp backend n q = get_answer nlp backend n q' := by
  subst ht
  subst hq
  exact ⟨rfl, rfl⟩

theorem C7_witness :
    preprocess_text modelNLP (.str "hi") = preprocess_text modelNLP (.str "hi") ∧
    get_answer modelNLP okBackend 1 (Option.some "hi")
      = get_answer modelNLP okBackend 1 (Option.some "hi") :=
  C7_deterministic modelNLP okBackend 1 (.str "hi") (.str "hi")
    (Option.some "hi") (Option.some "hi") rfl rfl

/-- C9: if the submit button was never clicked (falsy `n_clicks`) or the
text-area value is `None` or `""`, the callback returns `no_update` for both
outputs, and the result does not depend on the normalizer or on the
retrieval backend (no normalization or lookup is performed). -/
theorem C9_no_update_frame (nlp nlp' : NLP) (backend backend' : String → Except String String)
    (n : ℕ) (question : Option String)
    (h : n = 0 ∨ question = Option.none ∨ question = Option.some "") :
    get_answer nlp backend n question = (.noUpdate, Option.none) ∧
    get_answer nlp backend n question = get_answer nlp' backend' n question := by
  unfold get_answer
  rw [if_pos h, if_pos h]
  exact ⟨rfl, rfl⟩

theorem C9_witness :
    get_answer modelNLP okBackend 0 (Option.some "hi") = (.noUpdate, Option.none) ∧
    get_answer modelNLP okBackend 0 (Option.some "hi")
      = get_answer failNLP failBackend 0 (Option.some "hi") :=
  C9_no_update_frame modelNLP failNLP okBackend failBackend 0 (Option.some "hi")
    (Or.inl rfl)

/-- C10: whenever the callback produces a visible result (a successful
exchange, the validation message, or the generic failure message), its
second output is the empty string, clearing the user's input field. -/
theorem C10_clears_input (nlp : NLP) (backend : String → Except String String)
    (n : ℕ) (question : Option String)
    (h : (get_answer nlp backend n question).1 ≠ Display.noUpdate) :
    (get_answer nlp backend n question).2 = Option.some "" := by
  by_cases hc : n = 0 ∨ question = Option.none ∨ question = Option.some ""
  · have hupd : get_answer nlp backend n question = (.noUpdate, Option.none) := by
      unfold get_answer
      rw [if_pos hc]
    exact absurd (by rw [hupd]) h
  · unfold get_answer
    rw [if_neg hc]
    by_cases hpq : preprocess_text nlp (.str (question.getD "")) = ""
    · rw [if_pos hpq]
    · rw [if_neg hpq]
      cases hb : backend (preprocess_text nlp (.str (question.getD ""))) with
      | ok a => rfl
      | error e => rfl

theorem C10_witness :
    (get_answer modelNLP failBackend 1 (Option.some "hi")).1 ≠ Display.noUpdate ∧
    (get_answer modelNLP failBackend 1 (Option.some "hi")).2 = Option.some "" :=
  ⟨by decide, C10_clears_input modelNLP failBackend 1 (Option.some "hi") (by decide)⟩

/-- C1: for every non-empty corpus and every submitted query whose
normalized text is non-empty, the callback returns the `Answer` of the
corpus entry whose (l2-normalized) TF-IDF feature vector has minimum
Euclidean distance to the query vector; the selected index `k` attains the
minimum over all rows and every row of smaller index is strictly farther, so
among tied rows (in particular rows with identical normalized questions) the
lowest index wins. -/
theorem C1_nearest_neighbor_first (ctx : Ctx) (q : String)
    (hne : ctx.entries ≠ []) (hq : q ≠ "")
    (hpq : preprocess_text ctx.nlp (.str q) ≠ "") :
    ∃ k m, ∃ hk : k < ctx.entries.length,
      (docTokens ctx).get? k = Option.some m ∧
      get_answer ctx.nlp (realBackend ctx) 1 (Option.some q)
        = (.exchange q ((ctx.entries.get ⟨k, hk⟩).Answer), Option.some "") ∧
      (∀ j (hj : j < (docTokens ctx).length),
        distR ctx.idf (vocabOf ctx)
            (sklearnTokenize (preprocess_text ctx.nlp (.str q))) m
          ≤ distR ctx.idf (vocabOf ctx)
              (sklearnTokenize (preprocess_text ctx.nlp (.str q)))
              ((docTokens ctx).get ⟨j, hj⟩)) ∧
      (∀ j (hj : j < (docTokens ctx).length), j < k →
        distR ctx.idf (vocabOf ctx)
            (sklearnTokenize (preprocess_text ctx.nlp (.str q))) m
          < distR ctx.idf (vocabOf ctx)
              (sklearnTokenize (preprocess_text ctx.nlp (.str q)))
              ((docTokens ctx).get ⟨j, hj⟩)) := by
  obtain ⟨k, m, hk, hget, hans, hmin, hfirst⟩ :=
    corpus_answer_spec ctx (preprocess_text ctx.nlp (.str q)) hne
  refine ⟨k, m, hk, hget, ?_, hmin, hfirst⟩
  rw [get_answer_realBackend ctx q hq hpq, hans]

theorem C1_witness :
    (ctxTie.entries ≠ [] ∧ ("Hello world" : String) ≠ "" ∧
      preprocess_text ctxTie.nlp (.str "Hello world") ≠ "") ∧
    (∃ k m, ∃ hk : k < ctxTie.entries.length,
      (docTokens ctxTie).get? k = Option.some m ∧
      get_answer ctxTie.nlp (realBackend ctxTie) 1 (Option.some "Hello world")
        = (.exchange "Hello world" ((ctxTie.entries.get ⟨k, hk⟩).Answer), Option.some "") ∧
      (∀ j (hj : j < (docTokens ctxTie).length),
        distR ctxTie.idf (vocabOf ctxTie)
            (sklearnTokenize (preprocess_text ctxTie.nlp (.str "Hello world"))) m
          ≤ distR ctxTie.idf (vocabOf ctxTie)
              (sklearnTokenize (preprocess_text ctxTie.nlp (.str "Hello world")))
              ((docTokens ctxTie).get ⟨j, hj⟩)) ∧
      (∀ j (hj : j < (docTokens ctxTie).length), j < k →
        distR ctxTie.idf (vocabOf ctxTie)
            (sklearnTokenize (preprocess_text ctxTie.nlp (.str "Hello world"))) m
          < distR ctxTie.idf (vocabOf ctxTie)
              (sklearnTokenize (preprocess_text ctxTie.nlp (.str "Hello world")))
              ((docTokens ctxTie).get ⟨j, hj⟩))) :=
  ⟨⟨by decide, by decide, by decide⟩,
    C1_nearest_neighbor_first ctxTie "Hello world" (by decide) (by decide) (by decide)⟩

/-- C3: every submitted query whose normalized text is non-empty receives
some corpus entry's `Answer` — even when its TF-IDF vector is all-zero,
since there is no distance threshold — and the validation message is
produced only when the normalized text is empty. -/
theorem C3_no_threshold (ctx : Ctx) (hne : ctx.entries ≠ []) (q : String) (hq : q ≠ "") :
    (preprocess_text ctx.nlp (.str q) ≠ "" →
      ∃ k, ∃ hk : k < ctx.entries.length,
        get_answer ctx.nlp (realBackend ctx) 1 (Option.some q)
          = (.exchange q ((ctx.entries.get ⟨k, hk⟩).Answer), Option.some "")) ∧
    ((get_answer ctx.nlp (realBackend ctx) 1 (Option.some q)).1 = Display.validationMsg →
      preprocess_text ctx.nlp (.str q) = "") := by
  constructor
  · intro hpq
    obtain ⟨k, m, hk, _, hans, _, _⟩ :=
      corpus_answer_spec ctx (preprocess_text ctx.nlp (.str q)) hne
    refine ⟨k, hk, ?_⟩
    rw [get_answer_realBackend ctx q hq hpq, hans]
  · intro hv
    by_contra hpq
    rw [get_answer_realBackend ctx q hq hpq] at hv
    exact absurd hv (by simp)

theorem C3_witness :
    ((fallbackCtx (fun _ => 1) "missing file").entries ≠ [] ∧
      ("zzzz xyzzy" : String) ≠ "") ∧
    ((preprocess_text (fallbackCtx (fun _ => 1) "missing file").nlp (.str "zzzz xyzzy") ≠ "" →
      ∃ k, ∃ hk : k < (fallbackCtx (fun _ => 1) "missing file").entries.length,
        get_answer (fallbackCtx (fun _ => 1) "missing file").nlp
            (realBackend (fallbackCtx (fun _ => 1) "missing file")) 1
            (Option.some "zzzz xyzzy")
          = (.exchange "zzzz xyzzy"
              (((fallbackCtx (fun _ => 1) "missing file").entries.get ⟨k, hk⟩).Answer),
            Option.some "")) ∧
    ((get_answer (fallbackCtx (fun _ => 1) "missing file").nlp
        (realBackend (fallbackCtx (fun _ => 1) "missing file")) 1
        (Option.some "zzzz xyzzy")).1 = Display.validationMsg →
      preprocess_text (fallbackCtx (fun _ => 1) "missing file").nlp (.str "zzzz xyzzy") = "")) :=
  ⟨⟨by decide, by decide⟩,
    C3_no_threshold (fallbackCtx (fun _ => 1) "missing file") (by decide) "zzzz xyzzy" (by decide)⟩

/-- C8: on any corpus load failure the fixed two-entry fallback corpus is
substituted and initialization continues; in the resulting index the query
"What is the return policy?" (which contains "return policy") resolves to
the fallback refund answer "30 days money back guarantee".  This holds for
every positive idf assignment; sklearn's (values of the form
`ln((1+n)/(1+df))+1`, all at least 1) is one of them. -/
theorem C8_fallback_corpus (idf : String → ℚ) (hpos : ∀ t, 0 < idf t) (msg : String) :
    load_df (.failure msg) = fallback_entries ∧
    get_answer modelNLP (realBackend (fallbackCtx idf msg)) 1
        (Option.some "What is the return policy?")
      = (.exchange "What is the return policy?" "30 days money back guarantee",
          Option.some "") := by
  refine ⟨rfl, ?_⟩
  have hq : ("What is the return policy?" : String) ≠ "" := by decide
  have hpq : preprocess_text modelNLP (.str "What is the return policy?") ≠ "" := by decide
  rw [get_answer_submit modelNLP (realBackend (fallbackCtx idf msg)) _ hq hpq]
  show (Display.exchange "What is the return policy?"
      (corpus_answer (fallbackCtx idf msg)
        (preprocess_text modelNLP (.str "What is the return policy?"))),
    Option.some "")
    = (.exchange "What is the return policy?" "30 days money back guarantee",
        Option.some "")
  have hca : corpus_answer (fallbackCtx idf msg)
      (preprocess_text modelNLP (.str "What is the return policy?"))
      = "30 days money back guarantee" := by
    have hdocs : docTokens (fallbackCtx idf msg)
        = [["what", "is", "your", "return", "policy"],
           ["how", "do", "contact", "support"]] := by
      show List.map (fun e => sklearnTokenize (preprocess_text modelNLP (.str e.Question)))
        fallback_entries = _
      decide
    have hvocab : vocabOf (fallbackCtx idf msg)
        = ["what", "is", "your", "return", "policy",
           "how", "do", "contact", "support"] := by
      show ((List.map (fun e => sklearnTokenize (preprocess_text modelNLP (.str e.Question)))
        fallback_entries).flatten).eraseDups = _
      decide
    have hqt : sklearnTokenize (preprocess_text modelNLP (.str "What is the return policy?"))
        = ["what", "is", "the", "return", "policy"] := by decide
    have ha1 : dotQ idf
        ["what", "is", "your", "return", "policy", "how", "do", "contact", "support"]
        ["what", "is", "the", "return", "policy"]
        ["how", "do", "contact", "support"] = 0 :=
      dotQ_zero_of_disjoint idf _ _ _ (by decide)
    have hN : 0 < dotQ idf
        ["what", "is", "your", "return", "policy", "how", "do", "contact", "support"]
        ["what", "is", "the", "return", "policy"]
        ["what", "is", "the", "return", "policy"] :=
      dotQ_pos idf _ _ _ "what" (by decide) (by decide) (by decide) (ne_of_gt (hpos "what"))
    have hn0 : 0 < dotQ idf
        ["what", "is", "your", "return", "policy", "how", "do", "contact", "support"]
        ["what", "is", "your", "return", "policy"]
        ["what", "is", "your", "return", "policy"] :=
      dotQ_pos idf _ _ _ "what" (by decide) (by decide) (by decide) (ne_of_gt (hpos "what"))
    have hn1 : 0 < dotQ idf
        ["what", "is", "your", "return", "policy", "how", "do", "contact", "support"]
        ["how", "do", "contact", "support"]
        ["how", "do", "contact", "support"] :=
      dotQ_pos idf _ _ _ "how" (by decide) (by decide) (by decide) (ne_of_gt (hpos "how"))
    have hle : distLeB idf
        ["what", "is", "your", "return", "policy", "how", "do", "contact", "support"]
        ["what", "is", "the", "return", "policy"]
        ["what", "is", "your", "return", "policy"]
        ["how", "do", "contact", "support"] = true := by
      unfold distLeB
      rw [if_neg (ne_of_gt hN), if_neg (ne_of_gt hn0), if_neg (ne_of_gt hn1), ha1,
        decide_eq_true_eq]
      have hz : ((0 : ℚ)) ^ 2 * dotQ idf
          ["what", "is", "your", "return", "policy", "how", "do", "contact", "support"]
          ["what", "is", "your", "return", "policy"]
          ["what", "is", "your", "return", "policy"] = 0 := by ring
      rw [hz]
      exact mul_nonneg (sq_nonneg _) (le_of_lt hn1)
    have hnear : argminFirst
        (fun di dj => distLeB idf
          ["what", "is", "your", "return", "policy", "how", "do", "contact", "support"]
          ["what", "is", "the", "return", "policy"] di dj)
        [["what", "is", "your", "return", "policy"],
         ["how", "do", "contact", "support"]] =
        Option.some (0, ["what", "is", "your", "return", "policy"]) := by
      apply argminFirst_cons_of_le _
        (fun x y => distLeB_le_total idf _ _ x y)
        (fun x y z => distLeB_le_trans idf _ _ x y z)
      intro x hx
      obtain rfl := List.mem_singleton.1 hx
      exact hle
    unfold corpus_answer
    rw [show (fallbackCtx idf msg).idf = idf from rfl, hvocab, hqt, hdocs, hnear]
    rfl
  rw [hca]

theorem C8_witness :
    (∀ t : String, 0 < (fun _ : String => (1 : ℚ)) t) ∧
    (load_df (.failure "missing file") = fallback_entries ∧
      get_answer modelNLP (realBackend (fallbackCtx (fun _ => 1) "missing file")) 1
          (Option.some "What is the return policy?")
        = (.exchange "What is the return policy?" "30 days money back guarantee",
            Option.some "")) :=
  ⟨fun _ => zero_lt_one,
    C8_fallback_corpus (fun _ => 1) (fun _ => zero_lt_one) "missing file"⟩

end Chatbot
